import Mathlib

/-!
Verification of core components of the `sea-orm` relational-mapping runtime,
shallowly embedded in Lean 4 from the Rust sources:

* `ActiveValue` state machine and its `set_if_not_equals` transition and
  `PartialEq` instance (`src/entity/active_model.rs`);
* primary-key extraction (`get_primary_key_value`) and the `save`
  insert-or-update dispatch (`src/entity/active_model.rs`);
* the transaction lifecycle: `run`, `begin` statement ordering per backend,
  `commit`/`rollback`, and the drop-time `start_rollback` safety net
  (`src/database/transaction.rs`);
* single-row query outcome mapping (`Selector::one`,
  `DatabaseTransaction::query_one_raw`) (`src/executor/select.rs`);
* the multi-entity join consolidation algorithm
  (`consolidate_query_result` / `consolidate_query_result_of`)
  (`src/executor/select.rs`).

Pure functions are translated to Lean functions; effectful code is modelled
by passing driver outcomes (`Except`) explicitly and recording issued
statements as traces.
-/

/-- Embedding of `ActiveValue<V>` from `src/entity/active_model.rs`: the
three-state wrapper around a column value (`Set` / `Unchanged` / `NotSet`). -/
inductive ActiveValue (V : Type) : Type
  | Set (value : V)
  | Unchanged (value : V)
  | NotSet
deriving DecidableEq

namespace ActiveValue

variable {V : Type}

/-- `ActiveValue::is_set`. -/
def is_set : ActiveValue V → Bool
  | .Set _ => true
  | _ => false

/-- `ActiveValue::is_unchanged`. -/
def is_unchanged : ActiveValue V → Bool
  | .Unchanged _ => true
  | _ => false

/-- `ActiveValue::is_not_set`. -/
def is_not_set : ActiveValue V → Bool
  | .NotSet => true
  | _ => false

/-- `ActiveValue::into_value`: `Set`/`Unchanged` yield their payload,
`NotSet` yields none. (The Rust version also converts `V` into the dynamic
`Value` type; the embedding keeps the payload type.) -/
def into_value : ActiveValue V → Option V
  | .Set value => some value
  | .Unchanged value => some value
  | .NotSet => none

/-- `ActiveValue::set_if_not_equals`: `Set(value)`, except when the slot is
`Unchanged(current)` and `value == current`, in which case it is left
untouched. Direct translation of the two-arm `match` in the source. -/
def set_if_not_equals [DecidableEq V] (self : ActiveValue V) (value : V) :
    ActiveValue V :=
  match self with
  | .Unchanged current => if value = current then .Unchanged current else .Set value
  | _ => .Set value

/-- Embedding of `impl PartialEq for ActiveValue<V>`: equality is
state-sensitive, comparing payloads only within the same state. -/
def eq [DecidableEq V] : ActiveValue V → ActiveValue V → Bool
  | .Set l, .Set r => decide (l = r)
  | .Unchanged l, .Unchanged r => decide (l = r)
  | .NotSet, .NotSet => true
  | _, _ => false

end ActiveValue

/-- Embedding of `ValueTuple` (primary-key value shapes): one, two, three
values, or an ordered vector for higher arities. -/
inductive ValueTuple (Val : Type) : Type
  | One (a : Val)
  | Two (a b : Val)
  | Three (a b c : Val)
  | Many (vs : List Val)
deriving DecidableEq

/-- One step of the `next!` macro inside
`ActiveModelTrait::get_primary_key_value`: pull the next primary-key column
slot and extract its value, failing when the iterator is exhausted or the
slot is `NotSet`. The ActiveModel is represented by its primary-key column
slots in declared column order. -/
def nextPkValue {Val : Type} :
    List (ActiveValue Val) → Option (Val × List (ActiveValue Val))
  | [] => none
  | s :: rest =>
    match s.into_value with
    | some v => some (v, rest)
    | none => none

/-- The `len` arm of `get_primary_key_value`: run `next!` `n` times,
collecting the values in order. -/
def collectPkValues {Val : Type} :
    Nat → List (ActiveValue Val) → Option (List Val)
  | 0, _ => some []
  | n + 1, slots =>
    match nextPkValue slots with
    | none => none
    | some (v, rest) =>
      match collectPkValues n rest with
      | none => none
      | some vs => some (v :: vs)

/-- Embedding of `ActiveModelTrait::get_primary_key_value`
(`src/entity/active_model.rs`): dispatch on the primary-key arity, reading
the primary-key column slots in declared order; any `NotSet` slot aborts
with `none`. -/
def get_primary_key_value {Val : Type} (slots : List (ActiveValue Val)) :
    Option (ValueTuple Val) :=
  match slots.length with
  | 1 =>
    match nextPkValue slots with
    | none => none
    | some (s1, _) => some (.One s1)
  | 2 =>
    match nextPkValue slots with
    | none => none
    | some (s1, r1) =>
      match nextPkValue r1 with
      | none => none
      | some (s2, _) => some (.Two s1 s2)
  | 3 =>
    match nextPkValue slots with
    | none => none
    | some (s1, r1) =>
      match nextPkValue r1 with
      | none => none
      | some (s2, r2) =>
        match nextPkValue r2 with
        | none => none
        | some (s3, _) => some (.Three s1 s2 s3)
  | n =>
    match collectPkValues n slots with
    | none => none
    | some vs => some (.Many vs)

/-- Specification-side shape function for C6: a 1-element list becomes a
single value, 2 a pair, 3 a triple, anything else an ordered vector. -/
def mkValueTuple {Val : Type} (vs : List Val) : ValueTuple Val :=
  match vs with
  | [a] => .One a
  | [a, b] => .Two a b
  | [a, b, c] => .Three a b c
  | other => .Many other

/-- Specification-side description of `get_primary_key_value`, transcribed
from the spec: no key whenever any primary-key slot is `NotSet`, otherwise a
key of the arity-determined shape holding the slot values in declared
column order. -/
def specPrimaryKeyValue {Val : Type} (slots : List (ActiveValue Val)) :
    Option (ValueTuple Val) :=
  if slots.any ActiveValue.is_not_set then none
  else some (mkValueTuple (slots.filterMap ActiveValue.into_value))

/-- Minimal embedding of `DbErr` (`src/error.rs` is outside the provided
sources; only the constructors reachable from the embedded code are
modelled): a connection-level error or a query-level error, each carrying a
message. -/
inductive DbErr : Type
  | Conn (msg : String)
  | Query (msg : String)
deriving DecidableEq

/-- `conn_err` helper from the source: build a connection error. -/
def conn_err (msg : String) : DbErr := .Conn msg

/-- The `is_update` loop of `ActiveModelTrait::save`
(`src/entity/active_model.rs`): scan the primary-key column slots in
declared order and stop at the first `NotSet` one; the result is `true`
exactly when `save` chooses `insert` (i.e. `is_update` was set to `false`).
The ActiveModel is represented by its primary-key column slots. -/
def save_chooses_insert {Val : Type} : List (ActiveValue Val) → Bool
  | [] => false
  | s :: rest => if s.is_not_set then true else save_chooses_insert rest

/-- Embedding of `ActiveModelTrait::save` (`src/entity/active_model.rs`).
The two database operations are modelled by their outcomes
(`insertRes`/`updateRes`); `save` picks one according to the `is_update`
loop and converts the resulting model back into an ActiveModel via
`into_active_model`. -/
def ActiveModelTrait.save {Val Model AM : Type}
    (pkSlots : List (ActiveValue Val))
    (insertRes updateRes : Except DbErr Model)
    (into_active_model : Model → AM) : Except DbErr AM :=
  let is_update := !save_chooses_insert pkSlots
  let res := if !is_update then insertRes else updateRes
  res.map into_active_model

/-- Embedding of `TransactionError<E>` (`src/database/transaction.rs`): the
two-case union distinguishing a connection/commit/rollback failure from a
failure of the unit of work itself. -/
inductive TransactionError (E : Type) : Type
  | Connection (e : DbErr)
  | Transaction (e : E)
deriving DecidableEq

/-- Embedding of `DatabaseTransaction::run` (`src/database/transaction.rs`).
The callback and the driver-level commit/rollback are modelled by their
outcomes. The source maps the callback error into
`TransactionError::Transaction`, then commits on success (propagating a
commit failure as `TransactionError::Connection` via `?`) or rolls back on
failure (likewise propagating a rollback failure), and finally returns the
mapped callback result. -/
def DatabaseTransaction.run {T E : Type} (callbackRes : Except E T)
    (commitRes rollbackRes : Except DbErr Unit) :
    Except (TransactionError E) T :=
  let res : Except (TransactionError E) T :=
    match callbackRes with
    | .ok v => .ok v
    | .error e => .error (TransactionError.Transaction e)
  match res with
  | .ok v =>
    match commitRes with
    | .ok _ => .ok v
    | .error e => .error (TransactionError.Connection e)
  | .error err =>
    match rollbackRes with
    | .ok _ => .error err
    | .error e => .error (TransactionError.Connection e)

/-- Embedding of `TransactionTrait::transaction` for `DatabaseTransaction`:
begin a transaction (a begin failure becomes
`TransactionError::Connection`), then delegate to `run`. -/
def TransactionTrait.transaction {T E : Type} (beginRes : Except DbErr Unit)
    (callbackRes : Except E T) (commitRes rollbackRes : Except DbErr Unit) :
    Except (TransactionError E) T :=
  match beginRes with
  | .error e => .error (TransactionError.Connection e)
  | .ok _ => DatabaseTransaction.run callbackRes commitRes rollbackRes

/-- State of a `DatabaseTransaction` together with the piece of the world
the destructor interacts with: `isOpen` is the source's `open` flag (`open`
is a Lean keyword), and `lockFree` records whether `conn.try_lock()` on the
shared connection succeeds immediately. -/
structure DatabaseTransactionState : Type where
  isOpen : Bool
  lockFree : Bool
deriving DecidableEq

/-- Embedding of `DatabaseTransaction::start_rollback`
(`src/database/transaction.rs`): when the transaction is still open, attempt
a non-blocking `try_lock` on the shared connection; on success queue the
driver's rollback (modelled as `ok true`), on failure return the
`Dropping a locked Transaction` connection error; when the transaction is
no longer open, do nothing (`ok false`). -/
def DatabaseTransaction.start_rollback (tx : DatabaseTransactionState) :
    Except DbErr Bool :=
  if tx.isOpen then
    if tx.lockFree then .ok true
    else .error (conn_err "Dropping a locked Transaction")
  else .ok false

/-- Outcome of dropping a `DatabaseTransaction`. -/
inductive DropOutcome : Type
  | noRollback
  | rollbackStarted
  | panicked
deriving DecidableEq

/-- Embedding of `impl Drop for DatabaseTransaction`: call `start_rollback`
and panic (`expect`) on error. -/
def dropTransaction (tx : DatabaseTransactionState) : DropOutcome :=
  match DatabaseTransaction.start_rollback tx with
  | .ok true => .rollbackStarted
  | .ok false => .noRollback
  | .error _ => .panicked

/-- Embedding of `DatabaseTransaction::commit`: the driver-level commit is
modelled by its outcome; on success the `open` flag is cleared. -/
def DatabaseTransaction.commit (tx : DatabaseTransactionState)
    (driverRes : Except DbErr Unit) : Except DbErr DatabaseTransactionState :=
  match driverRes with
  | .error e => .error e
  | .ok _ => .ok { tx with isOpen := false }

/-- Embedding of `DatabaseTransaction::rollback`: same shape as `commit`,
clearing the `open` flag on success. -/
def DatabaseTransaction.rollback (tx : DatabaseTransactionState)
    (driverRes : Except DbErr Unit) : Except DbErr DatabaseTransactionState :=
  match driverRes with
  | .error e => .error e
  | .ok _ => .ok { tx with isOpen := false }

/-- The database backends distinguished by `DatabaseTransaction::begin`
(`InnerConnection` variants; the mock/proxy test backends are omitted). -/
inductive DbBackend : Type
  | MySql
  | Postgres
  | Sqlite
deriving DecidableEq

/-- A statement issued by `DatabaseTransaction::begin`: the backend's
isolation-level/access-mode configuration
(`set_transaction_config`) or the driver's transaction begin. -/
inductive TxOp : Type
  | SetTransactionConfig
  | BeginStmt
deriving DecidableEq

/-- Embedding of `DatabaseTransaction::begin`
(`src/database/transaction.rs`): per backend, the configuration call and the
driver `begin` are issued in the source's order, each short-circuiting on
error; the second component records the statements actually issued, in
order. MySQL: configuration before begin; Postgres: begin first, then
configuration inside the transaction; SQLite: configuration (a global
setting) before begin. -/
def DatabaseTransaction.begin (backend : DbBackend)
    (configRes beginRes : Except DbErr Unit) :
    Except DbErr Unit × List TxOp :=
  match backend with
  | .MySql =>
    match configRes with
    | .error e => (.error e, [.SetTransactionConfig])
    | .ok _ =>
      match beginRes with
      | .error e => (.error e, [.SetTransactionConfig, .BeginStmt])
      | .ok _ => (.ok (), [.SetTransactionConfig, .BeginStmt])
  | .Postgres =>
    match beginRes with
    | .error e => (.error e, [.BeginStmt])
    | .ok _ =>
      match configRes with
      | .error e => (.error e, [.BeginStmt, .SetTransactionConfig])
      | .ok _ => (.ok (), [.BeginStmt, .SetTransactionConfig])
  | .Sqlite =>
    match configRes with
    | .error e => (.error e, [.SetTransactionConfig])
    | .ok _ =>
      match beginRes with
      | .error e => (.error e, [.SetTransactionConfig, .BeginStmt])
      | .ok _ => (.ok (), [.SetTransactionConfig, .BeginStmt])

/-- Errors returned by the underlying sqlx driver. Modelled from the spec:
the driver distinguishes the row-not-found condition from genuine failures
(`sqlx::Error::RowNotFound` vs. the rest); the concrete error enumeration
lives in the excluded wire-driver layer. -/
inductive SqlxErr : Type
  | RowNotFound
  | Other (msg : String)
deriving DecidableEq

/-- Modelled from the spec: `sqlx_error_to_query_err` (defined in
`src/error.rs`, which is not among the provided sources) wraps a driver
error as a query error. -/
def sqlx_error_to_query_err : SqlxErr → DbErr
  | .RowNotFound => .Query "RowNotFound"
  | .Other msg => .Query msg

/-- Modelled from the spec: `sqlx_map_err_ignore_not_found` (defined in
`src/error.rs`, which is not among the provided sources) maps the driver's
row-not-found failure to the `Ok(None)` empty-result outcome and converts
every other driver failure into a query error. -/
def sqlx_map_err_ignore_not_found {Row : Type}
    (res : Except SqlxErr (Option Row)) : Except DbErr (Option Row) :=
  match res with
  | .ok v => .ok v
  | .error .RowNotFound => .ok none
  | .error e => .error (sqlx_error_to_query_err e)

/-- Embedding of `DatabaseTransaction::query_one_raw`
(`src/database/transaction.rs`): the driver's `fetch_one` outcome is mapped
through `map(|row| Some(row))` and then through
`sqlx_map_err_ignore_not_found`. -/
def DatabaseTransaction.query_one_raw {Row : Type}
    (fetchOneRes : Except SqlxErr Row) : Except DbErr (Option Row) :=
  sqlx_map_err_ignore_not_found
    (match fetchOneRes with
     | .ok row => .ok (some row)
     | .error e => .error e)

/-- Embedding of `Selector::one` (`src/executor/select.rs`): run the
(limit-1) query; a missing row yields `Ok none`, a present row is parsed
into the item type, and a query error propagates. -/
def Selector.one {Row Item : Type} (queryRes : Except DbErr (Option Row))
    (parse : Row → Except DbErr Item) : Except DbErr (Option Item) :=
  match queryRes with
  | .error e => .error e
  | .ok none => .ok none
  | .ok (some row) => (parse row).map some

/-- The `HashMap` used by `consolidate_query_result_of`, modelled
extensionally as a function from keys to optional values: the algorithm
only performs point lookup, insert, the or-default entry and remove, so
hashing and iteration order are irrelevant. -/
def HashMapFn (K A : Type) : Type := K → Option A

/-- `HashMap::insert`. -/
def HashMapFn.insert {K A : Type} [DecidableEq K] (m : HashMapFn K A)
    (k : K) (a : A) : HashMapFn K A :=
  fun q => if q = k then some a else m q

/-- `HashMap::remove` (the removed value is read off by applying `m` before
removal). -/
def HashMapFn.remove {K A : Type} [DecidableEq K] (m : HashMapFn K A)
    (k : K) : HashMapFn K A :=
  fun q => if q = k then none else m q

/-- One step of the bucket-building fold in `consolidate_query_result_of`
(`src/executor/select.rs`): for a row with a present child, push the child
onto the bucket of the row's parent key, creating the bucket if absent; for
a row with an absent child, just ensure the bucket exists
(`acc.entry(key).or_default()`). -/
def bucketStep {P C K : Type} [DecidableEq K] (model_key : P → K)
    (acc : HashMapFn K (List C)) (p : P) (oc : Option C) :
    HashMapFn K (List C) :=
  match oc with
  | some value =>
    match acc (model_key p) with
    | some vec => acc.insert (model_key p) (vec ++ [value])
    | none => acc.insert (model_key p) [value]
  | none =>
    match acc (model_key p) with
    | some _ => acc
    | none => acc.insert (model_key p) []

/-- The first pass of `consolidate_query_result_of`: fold the rows into a
map from parent key to accumulated child list. -/
def buildBuckets {P C K : Type} [DecidableEq K] (model_key : P → K) :
    List (P × Option C) → HashMapFn K (List C) → HashMapFn K (List C)
  | [], acc => acc
  | (p, oc) :: rest, acc =>
    buildBuckets model_key rest (bucketStep model_key acc p oc)

/-- The second pass of `consolidate_query_result_of`: re-walk the parent
models in original row order and emit `(parent, bucket.remove(key))` for
each first occurrence of a key; rows whose key has already been removed
produce nothing (`filter_map`). -/
def emitRows {P C K : Type} [DecidableEq K] (model_key : P → K) :
    List P → HashMapFn K (List C) → List (P × List C)
  | [], _ => []
  | p :: rest, m =>
    match m (model_key p) with
    | some r_models =>
      (p, r_models) :: emitRows model_key rest (m.remove (model_key p))
    | none => emitRows model_key rest m

/-- Embedding of `consolidate_query_result_of` (`src/executor/select.rs`),
generic in the key extraction (`KEY: ModelKey<L>`): build the key→children
map by a single scan, then re-walk the rows in input order, removing each
first-seen key from the map. -/
def consolidate_query_result_of {P C K : Type} [DecidableEq K]
    (model_key : P → K) (rows : List (P × Option C)) : List (P × List C) :=
  emitRows model_key (rows.map Prod.fst)
    (buildBuckets model_key rows (fun _ => none))

/-- Embedding of `consolidate_query_result` (`src/executor/select.rs`): the
arity dispatch over the parent entity's primary key — a single column keys
by the raw value (`UnitPk`), two columns by a pair (`PairPk`), anything
else by an ordered vector of values (`TuplePk`). A parent model is
abstracted by its column-value lookup `get`. -/
def consolidate_query_result {PM CM Col Val : Type} [DecidableEq Val]
    (get : PM → Col → Val) (pkCols : List Col)
    (rows : List (PM × Option CM)) : List (PM × List CM) :=
  match pkCols with
  | [col] => consolidate_query_result_of (fun m => get m col) rows
  | [col1, col2] =>
    consolidate_query_result_of (fun m => (get m col1, get m col2)) rows
  | cols => consolidate_query_result_of (fun m => cols.map (get m)) rows

/-- Specification-side for C1: the children belonging to parent key `k` —
every child of every row whose parent has that key, in input order. -/
def childrenOf {P C K : Type} [DecidableEq K] (model_key : P → K) (k : K) :
    List (P × Option C) → List C
  | [] => []
  | (p, oc) :: rest =>
    if model_key p = k then oc.toList ++ childrenOf model_key k rest
    else childrenOf model_key k rest

/-- Whether some row's parent carries key `k`. -/
def hasKey {P C K : Type} [DecidableEq K] (model_key : P → K) (k : K) :
    List (P × Option C) → Bool
  | [] => false
  | (p, _) :: rest => decide (model_key p = k) || hasKey model_key k rest

/-- Specification-side for C1: keep each parent whose key has not been seen
yet, in input order — i.e. one representative per distinct key, in
first-seen order. -/
def firstSeenBy {P K : Type} [DecidableEq K] (model_key : P → K) :
    List K → List P → List P
  | _, [] => []
  | seen, p :: ps =>
    if model_key p ∈ seen then firstSeenBy model_key seen ps
    else p :: firstSeenBy model_key (model_key p :: seen) ps

/-- Specification-side description of consolidation, transcribed from the
spec: one output entry per distinct parent key in first-seen order, each
entry pairing the first-seen parent with all of its children in input
order (empty when every row of that parent has an absent child). -/
def specConsolidate {P C K : Type} [DecidableEq K] (model_key : P → K)
    (rows : List (P × Option C)) : List (P × List C) :=
  (firstSeenBy model_key [] (rows.map Prod.fst)).map
    (fun p => (p, childrenOf model_key (model_key p) rows))

theorem collectPkValues_length {Val : Type} (slots : List (ActiveValue Val)) :
    collectPkValues slots.length slots =
      if slots.any ActiveValue.is_not_set then none
      else some (slots.filterMap ActiveValue.into_value) := by
  induction slots with
  | nil => rfl
  | cons s rest ih =>
    cases s with
    | Set v =>
      simp only [List.length_cons, collectPkValues, nextPkValue, ActiveValue.into_value, ih,
        List.any_cons, ActiveValue.is_not_set, List.filterMap_cons, Bool.false_or]
      by_cases h : rest.any ActiveValue.is_not_set <;> simp [h]
    | Unchanged v =>
      simp only [List.length_cons, collectPkValues, nextPkValue, ActiveValue.into_value, ih,
        List.any_cons, ActiveValue.is_not_set, List.filterMap_cons, Bool.false_or]
      by_cases h : rest.any ActiveValue.is_not_set <;> simp [h]
    | NotSet =>
      simp [collectPkValues, nextPkValue, ActiveValue.into_value, List.any_cons,
        ActiveValue.is_not_set]

theorem into_value_isSome_of_not_notset {Val : Type} (s : ActiveValue Val)
    (h : s.is_not_set = false) : ∃ v, s.into_value = some v := by
  cases s with
  | Set v => exact ⟨v, rfl⟩
  | Unchanged v => exact ⟨v, rfl⟩
  | NotSet => simp [ActiveValue.is_not_set] at h

/-- C6: `get_primary_key_value` agrees with the spec-side description: the
key shape is determined by the primary-key arity (1 → single value, 2 →
pair, 3 → triple, N → ordered vector of length N), the components are the
slot values in declared primary-key column order, and the result is `none`
exactly when some primary-key slot is `NotSet`. -/
theorem C6_get_primary_key_value_spec {Val : Type}
    (slots : List (ActiveValue Val)) :
    get_primary_key_value slots = specPrimaryKeyValue slots := by
  match slots with
  | [] => rfl
  | [a] =>
    cases a <;> rfl
  | [a, b] =>
    cases a <;> cases b <;> rfl
  | [a, b, c] =>
    cases a <;> cases b <;> cases c <;> rfl
  | a :: b :: c :: d :: rest =>
    have hget : get_primary_key_value (a :: b :: c :: d :: rest) =
        match collectPkValues (a :: b :: c :: d :: rest).length
          (a :: b :: c :: d :: rest) with
        | none => none
        | some vs => some (.Many vs) := rfl
    rw [hget, collectPkValues_length, specPrimaryKeyValue]
    by_cases h : (a :: b :: c :: d :: rest).any ActiveValue.is_not_set
    · simp [h]
    · simp only [h, if_neg, Bool.not_eq_true]
      simp only [List.any_cons, Bool.or_eq_true, not_or, Bool.not_eq_true] at h
      obtain ⟨ha, hb, hc, hd, _⟩ := by
        simpa [List.any_eq_true] using h
      obtain ⟨va, hva⟩ := into_value_isSome_of_not_notset a ha
      obtain ⟨vb, hvb⟩ := into_value_isSome_of_not_notset b hb
      obtain ⟨vc, hvc⟩ := into_value_isSome_of_not_notset c hc
      obtain ⟨vd, hvd⟩ := into_value_isSome_of_not_notset d hd
      simp [List.filterMap_cons, hva, hvb, hvc, hvd, mkValueTuple]

/-- C5: for a slot in state `Unchanged v`, `set_if_not_equals v'` leaves it
`Unchanged v` exactly when `v' = v` and otherwise moves it to `Set v'`;
moreover applying `set_if_not_equals` twice with the same value is the same
as applying it once (idempotence), from any starting state. -/
theorem C5_set_if_not_equals_unchanged_law {V : Type} [DecidableEq V]
    (v w : V) (a : ActiveValue V) :
    (ActiveValue.Unchanged v).set_if_not_equals w
      = (if w = v then ActiveValue.Unchanged v else ActiveValue.Set w) ∧
    (a.set_if_not_equals w).set_if_not_equals w = a.set_if_not_equals w := by
  constructor
  · rfl
  · cases a with
    | Set x => rfl
    | NotSet => rfl
    | Unchanged x =>
      by_cases h : w = x
      · simp [ActiveValue.set_if_not_equals, h]
      · simp [ActiveValue.set_if_not_equals, h]

/-- C9: from state `Set v` or `NotSet`, `set_if_not_equals v'` always
produces `Set v'` (even when `v = v'`); the result is never `NotSet`; and the
result is `Unchanged`-shaped exactly when the input already was `Unchanged`
with the assigned value (stated through the source `PartialEq`). -/
theorem C9_set_if_not_equals_set_notset {V : Type} [DecidableEq V]
    (v w : V) (a : ActiveValue V) :
    (ActiveValue.Set v).set_if_not_equals w = ActiveValue.Set w ∧
    (ActiveValue.NotSet : ActiveValue V).set_if_not_equals w = ActiveValue.Set w ∧
    (a.set_if_not_equals w).is_not_set = false ∧
    (a.set_if_not_equals w).is_unchanged = ActiveValue.eq a (ActiveValue.Unchanged w) := by
  refine ⟨rfl, rfl, ?_, ?_⟩
  · cases a with
    | Set x => rfl
    | NotSet => rfl
    | Unchanged x =>
      by_cases h : w = x
      · simp [ActiveValue.set_if_not_equals, h, ActiveValue.is_not_set]
      · simp [ActiveValue.set_if_not_equals, h, ActiveValue.is_not_set]
  · cases a with
    | Set x => simp [ActiveValue.set_if_not_equals, ActiveValue.is_unchanged, ActiveValue.eq]
    | NotSet => simp [ActiveValue.set_if_not_equals, ActiveValue.is_unchanged, ActiveValue.eq]
    | Unchanged x =>
      by_cases h : w = x
      · simp [ActiveValue.set_if_not_equals, h, ActiveValue.is_unchanged, ActiveValue.eq]
      · simp [ActiveValue.set_if_not_equals, h, ActiveValue.is_unchanged, ActiveValue.eq,
          Ne.symm h]

/-- C10: the `PartialEq` on `ActiveValue` is state-sensitive: payload
comparison applies only within a state, `NotSet` equals `NotSet`, and every
cross-state pair compares unequal — in particular `Set v` and `Unchanged v`
are unequal despite carrying the same payload. -/
theorem C10_active_value_eq_state_sensitive {V : Type} [DecidableEq V]
    (l r v : V) :
    ActiveValue.eq (ActiveValue.Set l) (ActiveValue.Set r) = decide (l = r) ∧
    ActiveValue.eq (ActiveValue.Unchanged l) (ActiveValue.Unchanged r) = decide (l = r) ∧
    ActiveValue.eq (ActiveValue.NotSet : ActiveValue V) ActiveValue.NotSet = true ∧
    ActiveValue.eq (ActiveValue.Set v) (ActiveValue.Unchanged v) = false ∧
    ActiveValue.eq (ActiveValue.Unchanged v) (ActiveValue.Set v) = false ∧
    ActiveValue.eq (ActiveValue.Set v) ActiveValue.NotSet = false ∧
    ActiveValue.eq (ActiveValue.NotSet : ActiveValue V) (ActiveValue.Set v) = false ∧
    ActiveValue.eq (ActiveValue.Unchanged v) ActiveValue.NotSet = false ∧
    ActiveValue.eq (ActiveValue.NotSet : ActiveValue V) (ActiveValue.Unchanged v) = false := by
  exact ⟨rfl, rfl, rfl, rfl, rfl, rfl, rfl, rfl, rfl⟩

/-- C7: `save` performs an insert exactly when at least one primary-key slot
is `NotSet` (otherwise an update), and the model produced by the chosen
operation is converted back into an ActiveModel and returned. -/
theorem C7_save_insert_iff_pk_not_set {Val Model AM : Type}
    (pkSlots : List (ActiveValue Val))
    (insertRes updateRes : Except DbErr Model)
    (into_active_model : Model → AM) :
    save_chooses_insert pkSlots = pkSlots.any ActiveValue.is_not_set ∧
    ActiveModelTrait.save pkSlots insertRes updateRes into_active_model
      = (if pkSlots.any ActiveValue.is_not_set then insertRes
         else updateRes).map into_active_model := by
  have hloop : save_chooses_insert pkSlots = pkSlots.any ActiveValue.is_not_set := by
    induction pkSlots with
    | nil => rfl
    | cons s rest ih =>
      cases s with
      | Set v => simpa [save_chooses_insert, ActiveValue.is_not_set] using ih
      | Unchanged v => simpa [save_chooses_insert, ActiveValue.is_not_set] using ih
      | NotSet => simp [save_chooses_insert, ActiveValue.is_not_set]
  refine ⟨hloop, ?_⟩
  simp only [ActiveModelTrait.save, hloop, Bool.not_not]

/-- C2: in `DatabaseTransaction::run` (and hence in
`transaction`/`transaction_with_config`), a callback returning `Ok v` leads
to a commit and result `Ok v`, a commit failure surfacing as
`TransactionError::Connection`; a callback returning `Err e` leads to a
rollback and, when the rollback succeeds, result
`TransactionError::Transaction e`, a rollback failure surfacing as
`TransactionError::Connection` — so work failures and infrastructure
failures are distinguished in the result type. -/
theorem C2_run_commit_rollback_distinction {T E : Type}
    (v : T) (e : E) (ce be : DbErr)
    (commitRes rollbackRes : Except DbErr Unit)
    (callbackRes : Except E T) :
    DatabaseTransaction.run (.ok v) (.ok ()) rollbackRes
      = (.ok v : Except (TransactionError E) T) ∧
    DatabaseTransaction.run (.ok v) (.error ce) rollbackRes
      = (.error (TransactionError.Connection ce) : Except (TransactionError E) T) ∧
    DatabaseTransaction.run (.error e) commitRes (.ok ())
      = (.error (TransactionError.Transaction e) : Except (TransactionError E) T) ∧
    DatabaseTransaction.run (.error e) commitRes (.error ce)
      = (.error (TransactionError.Connection ce) : Except (TransactionError E) T) ∧
    TransactionTrait.transaction (.error be) callbackRes commitRes rollbackRes
      = (.error (TransactionError.Connection be) : Except (TransactionError E) T) ∧
    TransactionTrait.transaction (.ok ()) callbackRes commitRes rollbackRes
      = DatabaseTransaction.run callbackRes commitRes rollbackRes := by
  exact ⟨rfl, rfl, rfl, rfl, rfl, rfl⟩

/-- C3: dropping a still-open transaction starts a rollback when the
non-blocking `try_lock` succeeds and panics when it does not; dropping a
transaction whose `open` flag is cleared issues no rollback at all — and a
successful `commit` (or `rollback`) clears the flag, so no rollback is ever
started after a successful commit. -/
theorem C3_drop_rollback_safety
    (lockFree : Bool) (tx : DatabaseTransactionState) :
    dropTransaction ⟨true, true⟩ = .rollbackStarted ∧
    dropTransaction ⟨true, false⟩ = .panicked ∧
    dropTransaction ⟨false, lockFree⟩ = .noRollback ∧
    (DatabaseTransaction.commit tx (.ok ())).map dropTransaction
      = .ok .noRollback ∧
    (DatabaseTransaction.rollback tx (.ok ())).map dropTransaction
      = .ok .noRollback := by
  refine ⟨rfl, rfl, rfl, rfl, rfl⟩

/-- C4: `DatabaseTransaction::begin` issues the isolation/access-mode
configuration in the backend-mandated position relative to BEGIN: for MySQL
and SQLite the configuration is issued before BEGIN (for SQLite as a global
setting), for Postgres BEGIN is issued first and the configuration runs
inside the opened transaction; in particular the first statement issued is
the configuration for MySQL/SQLite and BEGIN for Postgres, whatever the
driver outcomes. -/
theorem C4_begin_backend_ordering
    (configRes beginRes : Except DbErr Unit) :
    (DatabaseTransaction.begin .MySql (.ok ()) (.ok ())).2
      = [.SetTransactionConfig, .BeginStmt] ∧
    (DatabaseTransaction.begin .Postgres (.ok ()) (.ok ())).2
      = [.BeginStmt, .SetTransactionConfig] ∧
    (DatabaseTransaction.begin .Sqlite (.ok ()) (.ok ())).2
      = [.SetTransactionConfig, .BeginStmt] ∧
    (DatabaseTransaction.begin .MySql configRes beginRes).2.head?
      = some .SetTransactionConfig ∧
    (DatabaseTransaction.begin .Postgres configRes beginRes).2.head?
      = some .BeginStmt ∧
    (DatabaseTransaction.begin .Sqlite configRes beginRes).2.head?
      = some .SetTransactionConfig := by
  refine ⟨rfl, rfl, rfl, ?_, ?_, ?_⟩ <;>
    cases configRes <;> cases beginRes <;> rfl

/-- C8: a single-row query that finds zero rows is an `Ok` empty result,
never an error: `Selector::one` turns a row-less query outcome into
`Ok none` and propagates genuine errors, and
`DatabaseTransaction::query_one_raw` maps the driver's row-not-found
condition to `Ok none` while passing other driver failures through as query
errors. -/
theorem C8_query_one_none_not_error {Row Item : Type}
    (row : Row) (parse : Row → Except DbErr Item) (qerr : DbErr) (msg : String) :
    Selector.one (.ok none) parse = .ok none ∧
    Selector.one (.error qerr) parse = (.error qerr : Except DbErr (Option Item)) ∧
    Selector.one (.ok (some row)) parse = (parse row).map some ∧
    DatabaseTransaction.query_one_raw (.error .RowNotFound)
      = (.ok none : Except DbErr (Option Row)) ∧
    DatabaseTransaction.query_one_raw (.ok row) = .ok (some row) ∧
    DatabaseTransaction.query_one_raw (.error (.Other msg))
      = (.error (sqlx_error_to_query_err (.Other msg)) : Except DbErr (Option Row)) := by
  exact ⟨rfl, rfl, rfl, rfl, rfl, rfl⟩

theorem bucketStep_apply {P C K : Type} [DecidableEq K] (model_key : P → K)
    (acc : HashMapFn K (List C)) (p : P) (oc : Option C) (k : K) :
    bucketStep model_key acc p oc k =
      if k = model_key p then some ((acc (model_key p)).getD [] ++ oc.toList)
      else acc k := by
  cases oc with
  | some value =>
    cases hacc : acc (model_key p) with
    | some vec => simp [bucketStep, hacc, HashMapFn.insert]
    | none => simp [bucketStep, hacc, HashMapFn.insert]
  | none =>
    cases hacc : acc (model_key p) with
    | some vec =>
      by_cases hk : k = model_key p
      · subst hk; simp [bucketStep, hacc]
      · simp [bucketStep, hacc, hk]
    | none => simp [bucketStep, hacc, HashMapFn.insert]

theorem childrenOf_eq_nil {P C K : Type} [DecidableEq K] (model_key : P → K)
    (k : K) (rows : List (P × Option C))
    (h : hasKey model_key k rows = false) :
    childrenOf model_key k rows = [] := by
  induction rows with
  | nil => rfl
  | cons row rest ih =>
    obtain ⟨p, oc⟩ := row
    simp only [hasKey, Bool.or_eq_false_iff, decide_eq_false_iff_not] at h
    simp [childrenOf, h.1, ih h.2]

theorem buildBuckets_eq {P C K : Type} [DecidableEq K] (model_key : P → K)
    (rows : List (P × Option C)) :
    ∀ (acc : HashMapFn K (List C)) (k : K),
    buildBuckets model_key rows acc k =
      if hasKey model_key k rows
      then some ((acc k).getD [] ++ childrenOf model_key k rows)
      else acc k := by
  induction rows with
  | nil => intro acc k; simp [buildBuckets, hasKey, childrenOf]
  | cons row rest ih =>
    obtain ⟨p, oc⟩ := row
    intro acc k
    rw [buildBuckets, ih]
    by_cases hk : model_key p = k
    · have hk2 : k = model_key p := hk.symm
      subst hk2
      by_cases hrest : hasKey model_key (model_key p) rest
      · simp [hasKey, childrenOf, hrest, bucketStep_apply, List.append_assoc]
      · have hfalse : hasKey model_key (model_key p) rest = false := by
          simpa using hrest
        simp [hasKey, childrenOf, hfalse, bucketStep_apply,
          childrenOf_eq_nil model_key (model_key p) rest hfalse]
    · have hk2 : ¬ k = model_key p := fun h => hk h.symm
      simp [hasKey, childrenOf, hk, hk2, bucketStep_apply]

theorem hasKey_of_mem_fst {P C K : Type} [DecidableEq K] (model_key : P → K)
    (rows : List (P × Option C)) (p : P) (hp : p ∈ rows.map Prod.fst) :
    hasKey model_key (model_key p) rows = true := by
  induction rows with
  | nil => simp at hp
  | cons row rest ih =>
    obtain ⟨q, oc⟩ := row
    simp only [List.map_cons, List.mem_cons] at hp
    rcases hp with rfl | hp
    · simp [hasKey]
    · simp [hasKey, ih hp]

theorem emitRows_eq {P C K : Type} [DecidableEq K] (model_key : P → K)
    (f : K → List C) :
    ∀ (ps : List P) (seen : List K) (m : HashMapFn K (List C)),
    (∀ p, p ∈ ps → m (model_key p)
        = if model_key p ∈ seen then none else some (f (model_key p))) →
    emitRows model_key ps m
      = (firstSeenBy model_key seen ps).map (fun p => (p, f (model_key p))) := by
  intro ps
  induction ps with
  | nil => intro seen m _; rfl
  | cons p rest ih =>
    intro seen m hm
    have hp := hm p (List.mem_cons_self p rest)
    by_cases hseen : model_key p ∈ seen
    · rw [if_pos hseen] at hp
      rw [emitRows, hp, firstSeenBy, if_pos hseen]
      exact ih seen m (fun q hq => hm q (List.mem_cons_of_mem p hq))
    · rw [if_neg hseen] at hp
      rw [emitRows, hp, firstSeenBy, if_neg hseen, List.map_cons]
      show (p, f (model_key p)) :: emitRows model_key rest (m.remove (model_key p))
        = (p, f (model_key p)) :: (firstSeenBy model_key (model_key p :: seen) rest).map
            (fun p => (p, f (model_key p)))
      refine congrArg _ ?_
      refine ih (model_key p :: seen) (m.remove (model_key p)) ?_
      intro q hq
      by_cases hq2 : model_key q = model_key p
      · simp [HashMapFn.remove, hq2]
      · have := hm q (List.mem_cons_of_mem p hq)
        simp only [HashMapFn.remove, if_neg hq2]
        simpa [List.mem_cons, hq2] using this

theorem consolidate_of_spec {P C K : Type} [DecidableEq K]
    (model_key : P → K) (rows : List (P × Option C)) :
    consolidate_query_result_of model_key rows
      = specConsolidate model_key rows := by
  unfold consolidate_query_result_of specConsolidate
  refine emitRows_eq model_key (fun k => childrenOf model_key k rows)
    (rows.map Prod.fst) [] (buildBuckets model_key rows (fun _ => none)) ?_
  intro p hp
  rw [buildBuckets_eq]
  simp [hasKey_of_mem_fst model_key rows p hp]

theorem firstSeenBy_congr {P K1 K2 : Type} [DecidableEq K1] [DecidableEq K2]
    (k1 : P → K1) (k2 : P → K2)
    (hk : ∀ a b, (k1 a = k1 b) ↔ (k2 a = k2 b)) :
    ∀ (ps : List P) (seen1 : List K1) (seen2 : List K2),
    (∀ q, k1 q ∈ seen1 ↔ k2 q ∈ seen2) →
    firstSeenBy k1 seen1 ps = firstSeenBy k2 seen2 ps := by
  intro ps
  induction ps with
  | nil => intro seen1 seen2 _; rfl
  | cons p rest ih =>
    intro seen1 seen2 hseen
    by_cases hp : k1 p ∈ seen1
    · have hp2 : k2 p ∈ seen2 := (hseen p).mp hp
      rw [firstSeenBy, if_pos hp, firstSeenBy, if_pos hp2]
      exact ih seen1 seen2 hseen
    · have hp2 : k2 p ∉ seen2 := fun h => hp ((hseen p).mpr h)
      rw [firstSeenBy, if_neg hp, firstSeenBy, if_neg hp2]
      refine congrArg _ ?_
      refine ih (k1 p :: seen1) (k2 p :: seen2) ?_
      intro q
      simp only [List.mem_cons]
      constructor
      · rintro (h | h)
        · exact Or.inl ((hk q p).mp h)
        · exact Or.inr ((hseen q).mp h)
      · rintro (h | h)
        · exact Or.inl ((hk q p).mpr h)
        · exact Or.inr ((hseen q).mpr h)

theorem childrenOf_congr {P C K1 K2 : Type} [DecidableEq K1] [DecidableEq K2]
    (k1 : P → K1) (k2 : P → K2)
    (hk : ∀ a b, (k1 a = k1 b) ↔ (k2 a = k2 b)) (p : P)
    (rows : List (P × Option C)) :
    childrenOf k1 (k1 p) rows = childrenOf k2 (k2 p) rows := by
  induction rows with
  | nil => rfl
  | cons row rest ih =>
    obtain ⟨q, oc⟩ := row
    by_cases h : k1 q = k1 p
    · simp [childrenOf, h, (hk q p).mp h, ih]
    · have h2 : ¬ k2 q = k2 p := fun hh => h ((hk q p).mpr hh)
      simp [childrenOf, h, h2, ih]

theorem specConsolidate_congr {P C K1 K2 : Type}
    [DecidableEq K1] [DecidableEq K2]
    (k1 : P → K1) (k2 : P → K2)
    (hk : ∀ a b, (k1 a = k1 b) ↔ (k2 a = k2 b))
    (rows : List (P × Option C)) :
    specConsolidate k1 rows = specConsolidate k2 rows := by
  unfold specConsolidate
  rw [firstSeenBy_congr k1 k2 hk (rows.map Prod.fst) [] [] (fun q => by simp)]
  exact congrArg (fun g => List.map g (firstSeenBy k2 [] (rows.map Prod.fst)))
    (funext fun p => by rw [childrenOf_congr k1 k2 hk p rows])

/-- C1: the consolidation performed by `SelectTwoMany::all`
(`consolidate_query_result` dispatching to `consolidate_query_result_of`)
coincides with its specification: exactly one output entry per distinct
parent primary key, in first-seen order of that key in the input; each
entry lists every child of every row carrying that key (even from
non-adjacent rows) in input order; and a parent whose rows all have an
absent child yields an entry with an empty children list, not an absent
entry. The parent key is the primary-key value list in declared column
order (single value / pair / vector in the source, per arity). -/
theorem C1_consolidation_spec {PM CM Col Val : Type} [DecidableEq Val]
    (get : PM → Col → Val) (pkCols : List Col)
    (rows : List (PM × Option CM)) :
    consolidate_query_result get pkCols rows
      = specConsolidate (fun m => pkCols.map (get m)) rows := by
  match pkCols with
  | [] => exact consolidate_of_spec _ rows
  | [col] =>
    rw [show consolidate_query_result get [col] rows
        = consolidate_query_result_of (fun m => get m col) rows from rfl,
      consolidate_of_spec]
    exact specConsolidate_congr _ _ (fun a b => by simp) rows
  | [col1, col2] =>
    rw [show consolidate_query_result get [col1, col2] rows
        = consolidate_query_result_of
            (fun m => (get m col1, get m col2)) rows from rfl,
      consolidate_of_spec]
    exact specConsolidate_congr _ _ (fun a b => by simp [Prod.ext_iff]) rows
  | col1 :: col2 :: col3 :: restCols =>
    exact consolidate_of_spec _ rows
